import Mathlib

/-!
# Verification of the replit live-reload runner

Shallow embedding of the replit source (Go) in Lean 4.  The embedding follows
the final variant of the program in `constants.go` (the file concatenates
several historical variants of the same program; line references in doc
comments point into that file), together with `tui.go`.

Times are modelled in milliseconds as `Nat`; Go `time.Time.Sub` returns a
signed duration, modelled as subtraction in `Int`.  The filesystem is a list
of `(path, content)` pairs.  External subprocesses (entr, the editor, the
interpreter) are modelled by the data the program hands them (command names,
argument lists, stdin contents) and by process records with alive/killed
flags.
-/

namespace Replit

/-! ## Filesystem model, target file and shutdown cleanup -/

/-- Model of `EditorFile` (constants.go lines 701-704): the target file together with
the flag recording whether it was created as a temporary file. -/
structure EditorFile where
  IsTempFile : Bool
  name : String
  deriving Repr, DecidableEq

/-- A filesystem: a list of `(path, content)` entries. -/
abbrev FS := List (String × String)

/-- Whether a path exists on the filesystem. -/
def fsHas (fs : FS) (p : String) : Bool :=
  fs.any (fun e => e.1 = p)

/-- The shebang line written into a fresh temporary file
(constants.go line 758: `"#!/usr/bin/env " + lang + "\n"`). -/
def shebang (lang : String) : String :=
  "#!/usr/bin/env " ++ lang ++ "\n"

/-- Model of `TargetFile` (constants.go lines 751-775): with no file argument it
creates a fresh temporary file (fresh path `tmpName`, supplied by the
`ioutil.TempFile` oracle), writes the shebang into it and marks the result
temporary; otherwise it opens the existing file (failing if absent) and marks
the result non-temporary. -/
def TargetFile (file lang tmpName : String) (fs : FS) : Option (EditorFile × FS) :=
  if file.length = 0 then
    some (⟨true, tmpName⟩, (tmpName, shebang lang) :: fs)
  else if fsHas fs file then
    some (⟨false, file⟩, fs)
  else
    none

/-- Model of `os.Remove`: delete a path from the filesystem. -/
def osRemove (name : String) (fs : FS) : FS :=
  fs.filter (fun e => e.1 ≠ name)

/-- The temporary-file cleanup goroutine of the shutdown path
(constants.go lines 1045-1055, likewise `StopReplit` in the earlier
variants): the target file is removed from disk when and only when
`IsTempFile` holds; no other branch of the program removes files. -/
def shutdownCleanup (tf : EditorFile) (fs : FS) : FS :=
  if tf.IsTempFile then osRemove tf.name fs else fs

/-! ## Editor selection and launch -/

/-- Model of `CommandExists` (constants.go lines 777-781): `exec.LookPath` succeeds
exactly when the command is present on the search path, modelled as a list of
command names. -/
def CommandExists (path : List String) (cmd : String) : Bool :=
  path.contains cmd

/-- Model of `GetEditor` (constants.go lines 784-799): pick `$VISUAL` when non-empty,
else the default `code`; error exactly when the chosen command is not on the
search path.  `visual` is the value of the environment variable (empty when
unset).  The error message is carried without its quote characters. -/
def GetEditor (visual : String) (path : List String) : Except String String :=
  let editor := if visual.length > 0 then visual else "code"
  if CommandExists path editor then
    Except.ok editor
  else
    Except.error ("the command " ++ editor ++ " is not in PATH; is it installed and available as a command?")

/-- The argument list of the editor command built by `LaunchEditor`
(constants.go lines 802-815): for the default editor `code` the arguments are
`--goto` and the path suffixed with `:2`; otherwise the sole argument is the
path. -/
def editorArgs (editor name : String) : List String :=
  if editor = "code" then ["--goto", name ++ ":2"] else [name]

/-- Phase of the `ReplIt` lifecycle an event belongs to: before the signal
arrives (startup and run loop) or inside the shutdown sequence after
`<-sigs` (constants.go lines 1028-1058). -/
inductive RunPhase where
  | startup
  | shutdown
  deriving Repr, DecidableEq

/-- Everything `ReplIt` ever does involving the editor subprocess or its
handle, event by event. -/
inductive EditorEvent where
  /-- build of the editor command and `cmd.Start()` in `LaunchEditor`
  (constants.go lines 804-813) -/
  | spawn (editor : String) (args : List String)
  /-- the handle is passed on `editorChan` (line 814) -/
  | sendHandle
  /-- the handle is received from `editorChan` by the shutdown goroutine
  (line 1040), the only receive from `editorChan` in the program -/
  | receiveHandle
  /-- `editor.Process.Kill()` (line 1041) -/
  | killHandle
  deriving Repr, DecidableEq

/-- The editor lifecycle of `ReplIt`, in program order: `LaunchEditor` is
started exactly once at startup (constants.go lines 1002-1005), sending the
single handle on `editorChan`; the only consumer of `editorChan` is the
shutdown goroutine (lines 1037-1043), which receives the handle and kills
the process.  No other statement in the source reads or uses the handle. -/
def replItEditorEvents (editor name : String) : List (RunPhase × EditorEvent) :=
  [(RunPhase.startup, EditorEvent.spawn editor (editorArgs editor name)),
   (RunPhase.startup, EditorEvent.sendHandle),
   (RunPhase.shutdown, EditorEvent.receiveHandle),
   (RunPhase.shutdown, EditorEvent.killHandle)]

/-- Whether an event spawns an editor process. -/
def isEditorSpawn : RunPhase × EditorEvent → Bool
  | (_, EditorEvent.spawn _ _) => true
  | _ => false

/-- Whether an event operates on the editor process behind the retained
handle (as opposed to merely moving the handle through the channel). -/
def isProcessOp : RunPhase × EditorEvent → Bool
  | (_, EditorEvent.killHandle) => true
  | _ => false

/-! ## Directory listing and the file watcher -/

/-- One entry of the `filepath.Walk` traversal used by `ListDirectory`:
a full path and whether it names a directory. -/
structure WalkEntry where
  path : String
  isDir : Bool
  deriving Repr, DecidableEq

/-- Model of `ListDirectory` (constants.go lines 712-739): walk the directory tree
recursively and keep the paths of the non-directory entries.  The recursive
traversal itself is `filepath.Walk`; its visit sequence is the input. -/
def ListDirectory (entries : List WalkEntry) : List String :=
  (entries.filter (fun e => !e.isDir)).map (fun e => e.path)

/-- Model of `FileWatcher` (constants.go lines 817-820): the `Done` flag and the
watched file list, fixed at construction. -/
structure FileWatcher where
  Done : Bool
  Files : List String
  deriving Repr, DecidableEq

/-- Model of `FileWatcher.Stdin` (constants.go lines 826-830): the newline-joined
watched file list handed to each entr invocation. -/
def FileWatcher.watchStdin (w : FileWatcher) : String :=
  String.intercalate "\n" w.Files

/-- Model of `ObserveFileChanges` (constants.go lines 849-869): in temporary-file mode
watch just the target file; in directory mode watch the directory listing
captured here, once, at startup. -/
def ObserveFileChanges (isTempFile : Bool) (tmpName : String)
    (dirEntries : List WalkEntry) : FileWatcher :=
  if isTempFile then ⟨false, [tmpName]⟩ else ⟨false, ListDirectory dirEntries⟩

/-- The file list fed to the entr subprocess on watch cycle `k` of
`FileWatcher.Start` (constants.go lines 832-846): every iteration of the
loop recomputes `watch.Stdin()` from the same `watch.Files`, which no code
ever reassigns, so the list is independent of the cycle index. -/
def watchCycleFiles (w : FileWatcher) (_k : Nat) : List String :=
  w.Files

/-! ## Staleness condition of the run scheduler -/

/-- The staleness threshold of `RunLanguage` (constants.go line 937):
two seconds, in milliseconds. -/
def threshold : Int := 2000

/-- The stale-run test of `RunLanguage` (constants.go line 938, likewise
line 563 of the loop variant): Go computes `state.Time.Sub(now) > threshold`,
i.e. `lastStart - now > threshold` as signed durations. -/
def staleCond (lastStart now : Nat) : Bool :=
  decide ((lastStart : Int) - (now : Int) > threshold)

/-! ## The run scheduler as a transition system

`RunLanguage` (constants.go lines 922-984) installs two listeners on
condition variables: `onFileChange` on `tui.actions.fileChange` and
`killProcess` on `tui.actions.killProcess`.  `attachListener` (tui.go lines
51-67) re-arms a listener only after its body returns, so at most one
`onFileChange` body executes at a time; a broadcast finding no armed
listener is lost.  The model makes each atomic action of the `onFileChange`
body, the user-kill listener, clock advance and natural process exit a
separate transition, interleavable in any order; actions whose guard fails
leave the state unchanged. -/

/-- An interpreter process spawned by the scheduler: the clock value at
`cmd.Start`, whether it is still running, and whether it was killed. -/
structure RunProc where
  alive : Bool
  killed : Bool
  startClock : Nat
  deriving Repr, DecidableEq

/-- Model of `tui.runCount` and `tui.runTime` (tui.go lines 21-22, 140-148). -/
structure RunStats where
  count : Nat
  lastDurationMillis : Nat
  deriving Repr, DecidableEq

/-- Program counter of the (serialized) `onFileChange` body.  `now` is the
timestamp captured at entry (constants.go line 935); `running` also carries
the index of the spawned process in the process list and the clock value
captured as `startCommandTime` (line 968). -/
inductive FcPC where
  | waiting
  | staleCheck (now : Nat)
  | lockWait (now : Nat)
  | preSpawn (now : Nat)
  | running (now : Nat) (idx : Nat) (started : Nat)
  deriving Repr, DecidableEq

/-- The scheduler state: the clock, `state.Time`, `state.Lock`, the closure
variable `cmd` (an index into the list of all processes spawned so far, or
`none`), the processes, the statistics and the handler program counter. -/
structure RunSystem where
  clock : Nat
  stateTime : Nat
  lockHeld : Bool
  cmdRef : Option Nat
  procs : List RunProc
  stats : RunStats
  pc : FcPC
  deriving Repr, DecidableEq

/-- Effect of `cmd.Process.Kill()` on the process at index `i`: a running process dies
and is marked killed; killing an already-exited process returns an error
that the callers discard, leaving the record unchanged. -/
def killAt (procs : List RunProc) (i : Nat) : List RunProc :=
  match procs[i]? with
  | some p => if p.alive then procs.set i { p with alive := false, killed := true } else procs
  | none => procs

/-- Natural exit of the process at index `i`. -/
def exitAt (procs : List RunProc) (i : Nat) : List RunProc :=
  match procs[i]? with
  | some p => if p.alive then procs.set i { p with alive := false } else procs
  | none => procs

/-- The interleavable atomic actions of the scheduler system. -/
inductive Action where
  /-- advance: the clock advances by `n` milliseconds -/
  | tick (n : Nat)
  /-- broadcast of `tui.actions.fileChange` from the watcher (line 843);
  lost unless the listener is armed -/
  | fileChange
  /-- evaluation of the staleness test and its kill branch (lines 937-946) -/
  | staleEval
  /-- acquisition `state.Lock.Lock()` (line 948); fires only when the lock is free -/
  | lockAcq
  /-- assignment `state.Time = now`, then build and start the command (lines 962-969) -/
  | spawn
  /-- run of the `killProcess` listener (lines 926-931), fired by the `k` key -/
  | userKill
  /-- exit (natural) of the process at index `i` -/
  | procExit (i : Nat)
  /-- return of `cmd.Run()` after the process exited: record duration and
  count, release the lock (lines 969-976) -/
  | runReturn
  deriving Repr, DecidableEq

/-- One transition of the scheduler system; an action whose guard does not
hold leaves the state unchanged. -/
def step (a : Action) (s : RunSystem) : RunSystem :=
  match a with
  | .tick n => { s with clock := s.clock + n }
  | .fileChange =>
    match s.pc with
    | .waiting => { s with pc := .staleCheck s.clock }
    | _ => s
  | .staleEval =>
    match s.pc with
    | .staleCheck now =>
      if staleCond s.stateTime now then
        match s.cmdRef with
        | some i => { s with procs := killAt s.procs i, lockHeld := false, pc := .lockWait now }
        | none => { s with pc := .lockWait now }
      else
        { s with pc := .lockWait now }
    | _ => s
  | .lockAcq =>
    match s.pc with
    | .lockWait now => if s.lockHeld then s else { s with lockHeld := true, pc := .preSpawn now }
    | _ => s
  | .spawn =>
    match s.pc with
    | .preSpawn now =>
      { s with stateTime := now,
               cmdRef := some s.procs.length,
               procs := s.procs ++ [⟨true, false, s.clock⟩],
               pc := .running now s.procs.length s.clock }
    | _ => s
  | .userKill =>
    match s.cmdRef with
    | some i => { s with procs := killAt s.procs i, cmdRef := none }
    | none => s
  | .procExit i => { s with procs := exitAt s.procs i }
  | .runReturn =>
    match s.pc with
    | .running _ i started =>
      match s.procs[i]? with
      | some p =>
        if p.alive then s
        else { s with stats := ⟨s.stats.count + 1, s.clock - started⟩,
                      lockHeld := false,
                      pc := .waiting }
      | none => s
    | _ => s

/-- The startup state (constants.go lines 1008-1012): `state.Time` is the
startup instant (clock 0), the lock is free, no command, zero statistics,
listener armed. -/
def startState : RunSystem :=
  ⟨0, 0, false, none, [], ⟨0, 0⟩, .waiting⟩

/-- Run the system from `s` through a list of actions. -/
def execFrom (s : RunSystem) (acts : List Action) : RunSystem :=
  acts.foldl (fun t a => step a t) s

/-- Run the system from startup through a list of actions. -/
def exec (acts : List Action) : RunSystem :=
  execFrom startState acts

/-- Number of interpreter processes currently running. -/
def aliveCount (s : RunSystem) : Nat :=
  s.procs.countP (fun p => p.alive)

/-- The timestamp captured by the handler pass the pc is in, if any. -/
def pcNow : FcPC → Option Nat
  | .waiting => none
  | .staleCheck n => some n
  | .lockWait n => some n
  | .preSpawn n => some n
  | .running n _ _ => some n

/-! ## Counting run returns along a trace -/

/-- Whether action `a` in state `s` is the return of `cmd.Run()` that
updates the statistics (constants.go lines 969-973): the handler is at
`running` and the spawned process has exited. -/
def returnHappens (a : Action) (s : RunSystem) : Bool :=
  match a with
  | .runReturn =>
    match s.pc with
    | .running _ i _ =>
      match s.procs[i]? with
      | some p => !p.alive
      | none => false
    | _ => false
  | _ => false

/-- Number of run returns (killed or completed alike) along a trace. -/
def returnsIn (acts : List Action) (s : RunSystem) : Nat :=
  match acts with
  | [] => 0
  | a :: rest => (if returnHappens a s then 1 else 0) + returnsIn rest (step a s)

/-! ## The path-resolution model for argument reading

`ReadArgs` (constants.go lines 872-882) resolves the watched directory with
`filepath.Abs`.  The Go standard library functions `filepath.IsAbs`,
`filepath.Clean` and `filepath.Abs` are not part of this repository; they
are embedded here by their documented Unix semantics: `IsAbs` tests for a
leading slash, `Clean` normalises the path lexically (drop empty and `.`
elements, resolve `..` against preceding elements, keep leading `..` on
relative paths, drop `..` at the root, return `.` for an emptied relative
path), and `Abs(p)` is `Clean(p)` for absolute `p` and `Clean(wd + "/" + p)`
otherwise. -/

/-- Model of `filepath.IsAbs` on Unix: the path starts with a slash. -/
def isAbsPath (p : String) : Bool :=
  p.data.head? == some '/'

/-- One step of lexical path normalisation: process component `c` against
the stack of kept components (most recent first). -/
def pushComp (rooted : Bool) (stack : List String) (c : String) : List String :=
  if c = "" ∨ c = "." then stack
  else if c = ".." then
    match stack with
    | [] => if rooted then [] else [".."]
    | top :: rest => if top = ".." then c :: stack else rest
  else c :: stack

/-- Model of `filepath.Clean` on Unix, by its documented lexical semantics. -/
def cleanPath (p : String) : String :=
  let rooted := isAbsPath p
  let comps := ((p.splitOn "/").foldl (pushComp rooted) []).reverse
  let body := String.intercalate "/" comps
  if rooted then "/" ++ body
  else if body = "" then "." else body

/-- Model of `filepath.Abs` on Unix: already-absolute paths are cleaned; relative
paths are joined to the working directory and cleaned. -/
def absPath (wd p : String) : String :=
  if isAbsPath p then cleanPath p else cleanPath (wd ++ "/" ++ p)

/-- The directory-resolution logic of `ReadArgs` (constants.go lines
873-878): an absent or empty `--directory` option falls back to the working
directory (`os.Getwd`), then the choice is resolved with `filepath.Abs`.
`docopt` yields the empty string for an absent option. -/
def ReadArgsDir (dirOpt cwd : String) : String :=
  let dir := if dirOpt.length = 0 then cwd else dirOpt
  absPath cwd dir

/-! ## Concrete demonstration inputs -/

/-- A trace that triggers one run and leaves it in flight. -/
def demoRunTrace : List Action :=
  [Action.fileChange, Action.staleEval, Action.lockAcq, Action.spawn]

/-- A trace in which the user kills the in-flight run after 5 ms and the
killed `cmd.Run()` then returns. -/
def demoKillTrace : List Action :=
  [Action.fileChange, Action.staleEval, Action.lockAcq, Action.spawn,
   Action.tick 5, Action.userKill, Action.runReturn]

/-- A state after one finished run: the closure variable `cmd` still holds
the exited process. -/
def sKilledDemo : RunSystem :=
  ⟨5, 0, false, some 0, [⟨false, false, 0⟩], ⟨1, 5⟩, FcPC.waiting⟩

/-- A small filesystem for concrete checks. -/
def fsDemo : FS :=
  [("/tmp/replit123", "#!/usr/bin/env python3\n"), ("/home/user/a.py", "x = 1\n")]

/-- A small directory walk for concrete checks. -/
def entriesDemo : List WalkEntry :=
  [⟨"/proj", true⟩, ⟨"/proj/a.py", false⟩, ⟨"/proj/sub", true⟩,
   ⟨"/proj/sub/b.py", false⟩]

/-! ## The inductive invariant of the scheduler -/

/-- The inductive invariant: timestamps never run ahead of the clock, the
handler timestamp is at least `state.Time`, the lock is held from spawn to
stats update, and a process can be alive only while the handler pc sits at
`running` with that process's index. -/
structure Inv (s : RunSystem) : Prop where
  time_le : s.stateTime ≤ s.clock
  now_ge : ∀ n, pcNow s.pc = some n → s.stateTime ≤ n ∧ n ≤ s.clock
  lock_pre : ∀ now, s.pc = .preSpawn now → s.lockHeld = true
  lock_run : ∀ now i st, s.pc = .running now i st → s.lockHeld = true
  alive_run : ∀ j p, s.procs[j]? = some p → p.alive = true →
    ∃ now st, s.pc = .running now j st

/-- Killing cannot bring a process to life: a process alive after `killAt`
was alive, with the same record, before it. -/
theorem killAt_alive {procs : List RunProc} {i j : Nat} {p : RunProc}
    (hj : (killAt procs i)[j]? = some p) (hp : p.alive = true) :
    procs[j]? = some p := by
  cases hi : procs[i]? with
  | none => rw [killAt, hi] at hj; exact hj
  | some r =>
    rw [killAt, hi] at hj
    dsimp only at hj
    by_cases hr : r.alive
    · rw [if_pos hr] at hj
      by_cases hij : i = j
      · subst hij
        have hlen : i < procs.length := by
          rcases List.getElem?_eq_some_iff.mp hi with ⟨hl, _⟩
          exact hl
        rw [List.getElem?_set_self (by simpa using hlen)] at hj
        cases hj
        simp at hp
      · rw [List.getElem?_set_ne hij] at hj
        exact hj
    · rw [if_neg hr] at hj; exact hj

/-- Natural exit cannot bring a process to life either. -/
theorem exitAt_alive {procs : List RunProc} {i j : Nat} {p : RunProc}
    (hj : (exitAt procs i)[j]? = some p) (hp : p.alive = true) :
    procs[j]? = some p := by
  cases hi : procs[i]? with
  | none => rw [exitAt, hi] at hj; exact hj
  | some r =>
    rw [exitAt, hi] at hj
    dsimp only at hj
    by_cases hr : r.alive
    · rw [if_pos hr] at hj
      by_cases hij : i = j
      · subst hij
        have hlen : i < procs.length := by
          rcases List.getElem?_eq_some_iff.mp hi with ⟨hl, _⟩
          exact hl
        rw [List.getElem?_set_self (by simpa using hlen)] at hj
        cases hj
        simp at hp
      · rw [List.getElem?_set_ne hij] at hj
        exact hj
    · rw [if_neg hr] at hj; exact hj

/-- Every transition of the scheduler preserves the invariant. -/
theorem inv_step (a : Action) (s : RunSystem) (h : Inv s) : Inv (step a s) := by
  obtain ⟨htime, hnow, hlpre, hlrun, halive⟩ := h
  cases a with
  | tick n =>
    refine ⟨Nat.le_trans htime (Nat.le_add_right _ _), ?_, hlpre, hlrun, halive⟩
    intro m hm
    rcases hnow m hm with ⟨h1, h2⟩
    exact ⟨h1, Nat.le_trans h2 (Nat.le_add_right _ _)⟩
  | fileChange =>
    cases hpc : s.pc with
    | waiting =>
      simp only [step, hpc]
      refine ⟨htime, ?_, ?_, ?_, ?_⟩
      · intro m hm
        simp only [pcNow, Option.some.injEq] at hm
        subst hm
        exact ⟨htime, Nat.le_refl _⟩
      · intro now hcon; simp at hcon
      · intro now i st hcon; simp at hcon
      · intro j p hj hp
        rcases halive j p hj hp with ⟨now, st, hrun⟩
        rw [hpc] at hrun
        simp at hrun
    | staleCheck n => simp only [step, hpc]; exact ⟨htime, hnow, hlpre, hlrun, halive⟩
    | lockWait n => simp only [step, hpc]; exact ⟨htime, hnow, hlpre, hlrun, halive⟩
    | preSpawn n => simp only [step, hpc]; exact ⟨htime, hnow, hlpre, hlrun, halive⟩
    | running n i st => simp only [step, hpc]; exact ⟨htime, hnow, hlpre, hlrun, halive⟩
  | staleEval =>
    cases hpc : s.pc with
    | staleCheck n =>
      have hn : s.stateTime ≤ n ∧ n ≤ s.clock := hnow n (by rw [hpc]; rfl)
      have hdead : ∀ (j : Nat) (p : RunProc), s.procs[j]? = some p → p.alive = true → False := by
        intro j p hj hp
        rcases halive j p hj hp with ⟨now, st, hrun⟩
        rw [hpc] at hrun
        simp at hrun
      simp only [step, hpc]
      split
      · split
        · refine ⟨htime, ?_, ?_, ?_, ?_⟩
          · intro m hm
            simp only [pcNow, Option.some.injEq] at hm
            subst hm
            exact hn
          · intro now hcon; simp at hcon
          · intro now i st hcon; simp at hcon
          · intro j p hj hp
            exact (hdead j p (killAt_alive hj hp) hp).elim
        · refine ⟨htime, ?_, ?_, ?_, ?_⟩
          · intro m hm
            simp only [pcNow, Option.some.injEq] at hm
            subst hm
            exact hn
          · intro now hcon; simp at hcon
          · intro now i st hcon; simp at hcon
          · intro j p hj hp
            exact (hdead j p hj hp).elim
      · refine ⟨htime, ?_, ?_, ?_, ?_⟩
        · intro m hm
          simp only [pcNow, Option.some.injEq] at hm
          subst hm
          exact hn
        · intro now hcon; simp at hcon
        · intro now i st hcon; simp at hcon
        · intro j p hj hp
          exact (hdead j p hj hp).elim
    | waiting => simp only [step, hpc]; exact ⟨htime, hnow, hlpre, hlrun, halive⟩
    | lockWait n => simp only [step, hpc]; exact ⟨htime, hnow, hlpre, hlrun, halive⟩
    | preSpawn n => simp only [step, hpc]; exact ⟨htime, hnow, hlpre, hlrun, halive⟩
    | running n i st => simp only [step, hpc]; exact ⟨htime, hnow, hlpre, hlrun, halive⟩
  | lockAcq =>
    cases hpc : s.pc with
    | lockWait n =>
      have hn : s.stateTime ≤ n ∧ n ≤ s.clock := hnow n (by rw [hpc]; rfl)
      simp only [step, hpc]
      split
      · exact ⟨htime, hnow, hlpre, hlrun, halive⟩
      · refine ⟨htime, ?_, ?_, ?_, ?_⟩
        · intro m hm
          simp only [pcNow, Option.some.injEq] at hm
          subst hm
          exact hn
        · intro now _; rfl
        · intro now i st hcon; simp at hcon
        · intro j p hj hp
          rcases halive j p hj hp with ⟨now, st, hrun⟩
          rw [hpc] at hrun
          simp at hrun
    | waiting => simp only [step, hpc]; exact ⟨htime, hnow, hlpre, hlrun, halive⟩
    | staleCheck n => simp only [step, hpc]; exact ⟨htime, hnow, hlpre, hlrun, halive⟩
    | preSpawn n => simp only [step, hpc]; exact ⟨htime, hnow, hlpre, hlrun, halive⟩
    | running n i st => simp only [step, hpc]; exact ⟨htime, hnow, hlpre, hlrun, halive⟩
  | spawn =>
    cases hpc : s.pc with
    | preSpawn n =>
      have hn : s.stateTime ≤ n ∧ n ≤ s.clock := hnow n (by rw [hpc]; rfl)
      simp only [step, hpc]
      refine ⟨hn.2, ?_, ?_, ?_, ?_⟩
      · intro m hm
        simp only [pcNow, Option.some.injEq] at hm
        subst hm
        exact ⟨Nat.le_refl _, hn.2⟩
      · intro now hcon; simp at hcon
      · intro now i st _; exact hlpre n hpc
      · intro j p hj hp
        rcases Nat.lt_trichotomy j s.procs.length with hlt | heq | hgt
        · rw [List.getElem?_append_left hlt] at hj
          rcases halive j p hj hp with ⟨now, st, hrun⟩
          rw [hpc] at hrun
          simp at hrun
        · subst heq
          exact ⟨n, s.clock, rfl⟩
        · have hnone : (s.procs ++ [(⟨true, false, s.clock⟩ : RunProc)])[j]? = none := by
            apply List.getElem?_eq_none
            simp only [List.length_append, List.length_cons, List.length_nil]
            omega
          rw [hnone] at hj
          cases hj
    | waiting => simp only [step, hpc]; exact ⟨htime, hnow, hlpre, hlrun, halive⟩
    | staleCheck n => simp only [step, hpc]; exact ⟨htime, hnow, hlpre, hlrun, halive⟩
    | lockWait n => simp only [step, hpc]; exact ⟨htime, hnow, hlpre, hlrun, halive⟩
    | running n i st => simp only [step, hpc]; exact ⟨htime, hnow, hlpre, hlrun, halive⟩
  | userKill =>
    cases hcr : s.cmdRef with
    | none => simp only [step, hcr]; exact ⟨htime, hnow, hlpre, hlrun, halive⟩
    | some i =>
      simp only [step, hcr]
      refine ⟨htime, hnow, hlpre, hlrun, ?_⟩
      intro j p hj hp
      exact halive j p (killAt_alive hj hp) hp
  | procExit i =>
    refine ⟨htime, hnow, hlpre, hlrun, ?_⟩
    intro j p hj hp
    exact halive j p (exitAt_alive hj hp) hp
  | runReturn =>
    cases hpc : s.pc with
    | running n i st =>
      simp only [step, hpc]
      split
      · split
        · exact ⟨htime, hnow, hlpre, hlrun, halive⟩
        · rename_i p hpi hal
          refine ⟨htime, ?_, ?_, ?_, ?_⟩
          · intro m hm; simp [pcNow] at hm
          · intro now hcon; simp at hcon
          · intro now i' st' hcon; simp at hcon
          · intro j q hj hq
            rcases halive j q hj hq with ⟨now', st', hrun⟩
            rw [hpc] at hrun
            simp only [FcPC.running.injEq] at hrun
            obtain ⟨-, rfl, -⟩ := hrun
            rw [hpi] at hj
            cases hj
            simp [hq] at hal
      · exact ⟨htime, hnow, hlpre, hlrun, halive⟩
    | waiting => simp only [step, hpc]; exact ⟨htime, hnow, hlpre, hlrun, halive⟩
    | staleCheck n => simp only [step, hpc]; exact ⟨htime, hnow, hlpre, hlrun, halive⟩
    | lockWait n => simp only [step, hpc]; exact ⟨htime, hnow, hlpre, hlrun, halive⟩
    | preSpawn n => simp only [step, hpc]; exact ⟨htime, hnow, hlpre, hlrun, halive⟩

/-- The invariant holds at startup. -/
theorem inv_start : Inv startState := by
  refine ⟨Nat.le_refl 0, ?_, ?_, ?_, ?_⟩
  · intro n hn; simp [startState, pcNow] at hn
  · intro now h; simp [startState] at h
  · intro now i st h; simp [startState] at h
  · intro j p hj _; simp [startState] at hj

/-- The invariant holds along every execution. -/
theorem inv_execFrom (acts : List Action) (s : RunSystem) (h : Inv s) :
    Inv (execFrom s acts) := by
  induction acts generalizing s with
  | nil => exact h
  | cons a rest ih => exact ih (step a s) (inv_step a s h)

/-- The invariant holds in every state reachable from startup. -/
theorem inv_exec (acts : List Action) : Inv (exec acts) :=
  inv_execFrom acts startState inv_start

/-- A process list whose alive entries all sit at one index has at most one
alive entry. -/
theorem countP_alive_le_one (l : List RunProc) (i : Nat)
    (h : ∀ (j : Nat) (p : RunProc), l[j]? = some p → p.alive = true → j = i) :
    l.countP (fun p => p.alive) ≤ 1 := by
  induction l generalizing i with
  | nil => simp
  | cons p t ih =>
    by_cases hp : p.alive = true
    · have h0 : (0 : Nat) = i := h 0 p (by simp) hp
      have ht : t.countP (fun q => q.alive) = 0 := by
        rw [List.countP_eq_zero]
        intro q hq hqa
        rcases List.mem_iff_getElem?.mp hq with ⟨j, hj⟩
        have := h (j + 1) q (by simpa using hj) (by simpa using hqa)
        omega
      simp [List.countP_cons, hp, ht]
    · cases i with
      | zero =>
        have ht : t.countP (fun q => q.alive) = 0 := by
          rw [List.countP_eq_zero]
          intro q hq hqa
          rcases List.mem_iff_getElem?.mp hq with ⟨j, hj⟩
          have := h (j + 1) q (by simpa using hj) hqa
          omega
        simp [List.countP_cons, hp, ht]
      | succ i' =>
        have hle := ih i' (fun j q hj hq => by
          have := h (j + 1) q (by simpa using hj) hq
          omega)
        simp only [List.countP_cons, hp, if_neg]
        simpa using hle

/-- In every invariant state at most one interpreter process is alive. -/
theorem aliveCount_le_one (s : RunSystem) (h : Inv s) : aliveCount s ≤ 1 := by
  cases hpc : s.pc with
  | running n i st =>
    apply countP_alive_le_one s.procs i
    intro j p hj hp
    rcases h.alive_run j p hj hp with ⟨now, st', hrun⟩
    rw [hpc] at hrun
    simp only [FcPC.running.injEq] at hrun
    exact hrun.2.1.symm
  | waiting =>
    have h0 : aliveCount s = 0 := by
      rw [aliveCount, List.countP_eq_zero]
      intro p hp hpa
      rcases List.mem_iff_getElem?.mp hp with ⟨j, hj⟩
      rcases h.alive_run j p hj hpa with ⟨now, st, hrun⟩
      rw [hpc] at hrun
      simp at hrun
    omega
  | staleCheck n =>
    have h0 : aliveCount s = 0 := by
      rw [aliveCount, List.countP_eq_zero]
      intro p hp hpa
      rcases List.mem_iff_getElem?.mp hp with ⟨j, hj⟩
      rcases h.alive_run j p hj hpa with ⟨now, st, hrun⟩
      rw [hpc] at hrun
      simp at hrun
    omega
  | lockWait n =>
    have h0 : aliveCount s = 0 := by
      rw [aliveCount, List.countP_eq_zero]
      intro p hp hpa
      rcases List.mem_iff_getElem?.mp hp with ⟨j, hj⟩
      rcases h.alive_run j p hj hpa with ⟨now, st, hrun⟩
      rw [hpc] at hrun
      simp at hrun
    omega
  | preSpawn n =>
    have h0 : aliveCount s = 0 := by
      rw [aliveCount, List.countP_eq_zero]
      intro p hp hpa
      rcases List.mem_iff_getElem?.mp hp with ⟨j, hj⟩
      rcases h.alive_run j p hj hpa with ⟨now, st, hrun⟩
      rw [hpc] at hrun
      simp at hrun
    omega

/-- A single step changes `count` exactly by one when a run returns and not
otherwise. -/
theorem count_step (a : Action) (s : RunSystem) :
    (step a s).stats.count = s.stats.count + (if returnHappens a s then 1 else 0) := by
  cases a with
  | tick n => simp [step, returnHappens]
  | fileChange => cases hpc : s.pc <;> simp [step, returnHappens, hpc]
  | staleEval =>
    cases hpc : s.pc with
    | staleCheck n =>
      simp only [step, returnHappens, hpc]
      split
      · split <;> simp
      · simp
    | waiting => simp [step, returnHappens, hpc]
    | lockWait n => simp [step, returnHappens, hpc]
    | preSpawn n => simp [step, returnHappens, hpc]
    | running n i st => simp [step, returnHappens, hpc]
  | lockAcq =>
    cases hpc : s.pc with
    | lockWait n =>
      simp only [step, returnHappens, hpc]
      split <;> simp
    | waiting => simp [step, returnHappens, hpc]
    | staleCheck n => simp [step, returnHappens, hpc]
    | preSpawn n => simp [step, returnHappens, hpc]
    | running n i st => simp [step, returnHappens, hpc]
  | spawn => cases hpc : s.pc <;> simp [step, returnHappens, hpc]
  | userKill => cases hcr : s.cmdRef <;> simp [step, returnHappens, hcr]
  | procExit i => simp [step, returnHappens]
  | runReturn =>
    cases hpc : s.pc with
    | running n i st =>
      simp only [step, returnHappens, hpc]
      cases hpi : s.procs[i]? with
      | some p =>
        by_cases hal : p.alive = true
        · simp [hal]
        · simp only [Bool.not_eq_true] at hal
          simp [hal]
      | none => simp
    | waiting => simp [step, returnHappens, hpc]
    | staleCheck n => simp [step, returnHappens, hpc]
    | lockWait n => simp [step, returnHappens, hpc]
    | preSpawn n => simp [step, returnHappens, hpc]

/-! ## Small helper lemmas -/

/-- A string of length zero is the empty string. -/
theorem string_eq_empty_of_length_eq_zero {s : String} (h : s.length = 0) :
    s = "" := by
  cases s with
  | mk data =>
    have hd : data = [] := List.length_eq_zero.mp h
    subst hd
    rfl

/-- Appending to an absolute path keeps it absolute. -/
theorem isAbsPath_append (p q : String) (h : isAbsPath p = true) :
    isAbsPath (p ++ q) = true := by
  unfold isAbsPath at h ⊢
  have h' : p.data.head? = some '/' := by simpa using h
  rw [String.data_append, List.head?_append, h']
  rfl

/-- Cleaning an absolute path yields an absolute path. -/
theorem isAbsPath_cleanPath (p : String) (h : isAbsPath p = true) :
    isAbsPath (cleanPath p) = true := by
  unfold cleanPath
  rw [h]
  simp only [if_true]
  exact isAbsPath_append "/" _ (by decide)

/-- `filepath.Abs` relative to an absolute working directory yields an
absolute path. -/
theorem isAbsPath_absPath (wd p : String) (h : isAbsPath wd = true) :
    isAbsPath (absPath wd p) = true := by
  unfold absPath
  by_cases hp : isAbsPath p = true
  · rw [if_pos hp]
    exact isAbsPath_cleanPath p hp
  · rw [if_neg hp]
    exact isAbsPath_cleanPath _ (isAbsPath_append _ p (isAbsPath_append wd "/" h))

/-! ## The claims -/

/-- C1: the claim says the scheduler kills a still-active process whenever
the elapsed time since the previous run start exceeds the 2-second
threshold, i.e. that the kill branch is reachable.  The code compares
`state.Time.Sub(now)` (lastStart − now) against the threshold, so in every
reachable state at the staleness test the condition is false; in particular
at the concrete failing input lastStart = 0 ms, now = 3000 ms the elapsed
time 3000 ms exceeds the threshold yet the branch is not taken. -/
theorem stale_kill_never_fires :
    (∀ (acts : List Action) (now : Nat),
      (exec acts).pc = FcPC.staleCheck now →
      staleCond (exec acts).stateTime now = false) ∧
    ((3000 : Int) - (0 : Int) > threshold ∧ staleCond 0 3000 = false) := by
  constructor
  · intro acts now hpc
    have hn := ((inv_exec acts).now_ge now (by rw [hpc]; rfl)).1
    simp only [staleCond, threshold, decide_eq_false_iff_not]
    omega
  · exact ⟨by decide, by decide⟩

/-- Witness for C1: after one change event the scheduler sits at the
staleness test and the condition evaluates to false. -/
theorem stale_kill_never_fires_witness :
    staleCond (exec [Action.fileChange]).stateTime 0 = false :=
  stale_kill_never_fires.1 [Action.fileChange] 0 (by decide)

/-- C2: in every reachable state at most one interpreter process is alive,
and the run-slot mutex is held through the whole spawn-to-stats-update span
(program counter at `preSpawn` or `running`). -/
theorem single_flight (acts : List Action) :
    aliveCount (exec acts) ≤ 1 ∧
    (∀ now, (exec acts).pc = FcPC.preSpawn now → (exec acts).lockHeld = true) ∧
    (∀ now i st, (exec acts).pc = FcPC.running now i st →
      (exec acts).lockHeld = true) :=
  ⟨aliveCount_le_one _ (inv_exec acts), (inv_exec acts).lock_pre,
   (inv_exec acts).lock_run⟩

/-- Witness for C2: a concrete trace with a run in flight has one alive
process and the lock held. -/
theorem single_flight_witness :
    aliveCount (exec demoRunTrace) ≤ 1 ∧ (exec demoRunTrace).lockHeld = true :=
  ⟨(single_flight demoRunTrace).1,
   (single_flight demoRunTrace).2.2 0 0 0 (by decide)⟩

/-- C3: after shutdown the target file is gone from disk if and only if it
was temporary; a non-temporary target file leaves the filesystem untouched. -/
theorem cleanup_iff_temporary (tf : EditorFile) (fs : FS) :
    (tf.IsTempFile = true → fsHas (shutdownCleanup tf fs) tf.name = false) ∧
    (tf.IsTempFile = false → shutdownCleanup tf fs = fs) := by
  constructor
  · intro ht
    simp [shutdownCleanup, ht, osRemove, fsHas, List.any_eq_true, List.mem_filter]
  · intro ht
    simp [shutdownCleanup, ht]

/-- Witness for C3 at a concrete filesystem. -/
theorem cleanup_iff_temporary_witness :
    fsHas (shutdownCleanup ⟨true, "/tmp/replit123"⟩ fsDemo) "/tmp/replit123" = false ∧
    shutdownCleanup ⟨false, "/home/user/a.py"⟩ fsDemo = fsDemo :=
  ⟨(cleanup_iff_temporary ⟨true, "/tmp/replit123"⟩ fsDemo).1 rfl,
   (cleanup_iff_temporary ⟨false, "/home/user/a.py"⟩ fsDemo).2 rfl⟩

/-- C4: with no file argument, `TargetFile` creates a fresh temporary file
whose content begins with the shebang for the selected interpreter and marks
it temporary; with a file argument it opens the existing file and marks it
non-temporary. -/
theorem targetFile_spec (file lang tmpName : String) (fs : FS) :
    (file = "" →
      TargetFile file lang tmpName fs =
        some (⟨true, tmpName⟩, (tmpName, shebang lang) :: fs) ∧
      ∃ rest, shebang lang = "#!/usr/bin/env " ++ lang ++ "\n" ++ rest) ∧
    (file ≠ "" → fsHas fs file = true →
      TargetFile file lang tmpName fs = some (⟨false, file⟩, fs)) := by
  constructor
  · intro hf
    subst hf
    constructor
    · simp [TargetFile]
    · exact ⟨"", by simp [shebang]⟩
  · intro hf hhas
    have hlen : ¬file.length = 0 := fun h0 => hf (string_eq_empty_of_length_eq_zero h0)
    simp [TargetFile, hlen, hhas]

/-- Witness for C4 at concrete inputs. -/
theorem targetFile_spec_witness :
    TargetFile "" "python3" "/tmp/replit123" [] =
      some (⟨true, "/tmp/replit123"⟩, [("/tmp/replit123", shebang "python3")]) ∧
    TargetFile "/home/user/a.py" "python3" "/tmp/replit123" fsDemo =
      some (⟨false, "/home/user/a.py"⟩, fsDemo) :=
  ⟨((targetFile_spec "" "python3" "/tmp/replit123" []).1 rfl).1,
   (targetFile_spec "/home/user/a.py" "python3" "/tmp/replit123" fsDemo).2
     (by decide) (by decide)⟩

/-- Counterexample to C5: in the concrete trace `demoKillTrace` the single
run is killed by the user, yet its `cmd.Run()` return increments the count
to 1 and records a 5 ms duration, while zero non-killed runs completed. -/
theorem killed_run_counted_counterexample :
    (exec demoKillTrace).stats.count = 1 ∧
    (exec demoKillTrace).stats.lastDurationMillis = 5 ∧
    (exec demoKillTrace).procs = [⟨false, true, 0⟩] ∧
    ((exec demoKillTrace).procs.filter (fun p => !p.killed)).length = 0 := by
  decide

/-- C5 as amended: the run count never decreases, and it equals the starting
count plus the number of `cmd.Run()` returns along the trace, counting
killed and completed runs alike. -/
theorem run_count_exact (s : RunSystem) (acts : List Action) :
    (execFrom s acts).stats.count = s.stats.count + returnsIn acts s ∧
    s.stats.count ≤ (execFrom s acts).stats.count := by
  induction acts generalizing s with
  | nil => exact ⟨rfl, Nat.le_refl _⟩
  | cons a rest ih =>
    have h1 := (ih (step a s)).1
    have h2 := count_step a s
    constructor
    · show (execFrom (step a s) rest).stats.count =
        s.stats.count + ((if returnHappens a s then 1 else 0) + returnsIn rest (step a s))
      omega
    · show s.stats.count ≤ (execFrom (step a s) rest).stats.count
      omega

/-- C6: the user-kill listener never changes the statistics, is idempotent,
and on an already-exited process leaves the process list untouched. -/
theorem userKill_idempotent (s : RunSystem) (i : Nat) :
    (step Action.userKill s).stats = s.stats ∧
    step Action.userKill (step Action.userKill s) = step Action.userKill s ∧
    (s.cmdRef = some i → ∀ p : RunProc, s.procs[i]? = some p → p.alive = false →
      (step Action.userKill s).procs = s.procs) := by
  refine ⟨?_, ?_, ?_⟩
  · cases hcr : s.cmdRef <;> simp [step, hcr]
  · have hnone : ∀ t : RunSystem, t.cmdRef = none → step Action.userKill t = t := by
      intro t ht
      simp [step, ht]
    cases hcr : s.cmdRef with
    | none => rw [hnone s hcr]; exact hnone s hcr
    | some j =>
      apply hnone
      simp [step, hcr]
  · intro hcr p hp hal
    simp only [step, hcr]
    show killAt s.procs i = s.procs
    rw [killAt, hp]
    dsimp only
    rw [if_neg (by simp [hal])]

/-- Witness for C6 at a concrete state whose process has already exited. -/
theorem userKill_idempotent_witness :
    (step Action.userKill sKilledDemo).stats = sKilledDemo.stats ∧
    step Action.userKill (step Action.userKill sKilledDemo) =
      step Action.userKill sKilledDemo ∧
    (step Action.userKill sKilledDemo).procs = sKilledDemo.procs :=
  ⟨(userKill_idempotent sKilledDemo 0).1,
   (userKill_idempotent sKilledDemo 0).2.1,
   (userKill_idempotent sKilledDemo 0).2.2 rfl ⟨false, false, 0⟩ (by decide) rfl⟩

/-- C7: in directory mode the watched list of every cycle is the directory
enumeration captured at startup, so a file absent from that snapshot is
never watched, in any cycle. -/
theorem watcher_snapshot (tmp : String) (entries : List WalkEntry) (k : Nat)
    (f : String) :
    watchCycleFiles (ObserveFileChanges false tmp entries) k =
      ListDirectory entries ∧
    (f ∉ ListDirectory entries →
      f ∉ watchCycleFiles (ObserveFileChanges false tmp entries) k) := by
  constructor
  · simp [watchCycleFiles, ObserveFileChanges]
  · intro hf
    simpa [watchCycleFiles, ObserveFileChanges] using hf

/-- Witness for C7: a file created after startup is invisible in cycle 7. -/
theorem watcher_snapshot_witness :
    watchCycleFiles (ObserveFileChanges false "/tmp/replit123" entriesDemo) 7 =
      ListDirectory entriesDemo ∧
    "/proj/new.py" ∉
      watchCycleFiles (ObserveFileChanges false "/tmp/replit123" entriesDemo) 7 :=
  ⟨(watcher_snapshot "/tmp/replit123" entriesDemo 7 "/proj/new.py").1,
   (watcher_snapshot "/tmp/replit123" entriesDemo 7 "/proj/new.py").2 (by decide)⟩

/-- C8: the editor is `$VISUAL` when non-empty and `code` otherwise, and
`GetEditor` errors exactly when the chosen command is missing from the
search path. -/
theorem getEditor_spec (visual : String) (path : List String) :
    (0 < visual.length →
      (CommandExists path visual = true → GetEditor visual path = Except.ok visual) ∧
      (CommandExists path visual = false →
        ∃ msg, GetEditor visual path = Except.error msg)) ∧
    (visual.length = 0 →
      (CommandExists path "code" = true → GetEditor visual path = Except.ok "code") ∧
      (CommandExists path "code" = false →
        ∃ msg, GetEditor visual path = Except.error msg)) := by
  constructor
  · intro hv
    constructor
    · intro hc
      simp [GetEditor, hv, hc]
    · intro hc
      exact ⟨_, by simp [GetEditor, hv, hc]; rfl⟩
  · intro hv
    constructor
    · intro hc
      simp [GetEditor, hv, hc]
    · intro hc
      exact ⟨_, by simp [GetEditor, hv, hc]; rfl⟩

/-- Witness for C8 at concrete environments. -/
theorem getEditor_spec_witness :
    GetEditor "vim" ["code", "vim"] = Except.ok "vim" ∧
    (∃ msg, GetEditor "" ["vim"] = Except.error msg) :=
  ⟨((getEditor_spec "vim" ["code", "vim"]).1 (by decide)).1 (by decide),
   ((getEditor_spec "" ["vim"]).2 rfl).2 (by decide)⟩

/-- Counterexample to C9: for the default editor `code` the spawned
arguments are `--goto` and the path suffixed with `:2`; the plain target
file path is not among the arguments. -/
theorem editor_path_arg_counterexample :
    editorArgs "code" "/tmp/replit123" = ["--goto", "/tmp/replit123:2"] ∧
    "/tmp/replit123" ∉ editorArgs "code" "/tmp/replit123" := by
  decide

/-- C9 as amended: the editor is spawned exactly once, at startup; for the
editor `code` the arguments are `--goto` and the path suffixed with `:2`,
for any other editor the sole argument is the path itself, so some argument
always extends the target file path; and the retained handle is used for
nothing but its shutdown-phase termination: the only operation the program
ever applies to the editor process after the spawn is the kill in the
shutdown goroutine. -/
theorem editor_spawn_once (editor name : String) :
    ((replItEditorEvents editor name).filter isEditorSpawn).length = 1 ∧
    (RunPhase.startup, EditorEvent.spawn editor (editorArgs editor name)) ∈
      replItEditorEvents editor name ∧
    (editor = "code" → editorArgs editor name = ["--goto", name ++ ":2"]) ∧
    (editor ≠ "code" → editorArgs editor name = [name]) ∧
    (∃ a ∈ editorArgs editor name, ∃ t, a = name ++ t) ∧
    (∀ pe ∈ replItEditorEvents editor name, isProcessOp pe = true →
      pe = (RunPhase.shutdown, EditorEvent.killHandle)) := by
  refine ⟨?_, ?_, ?_, ?_, ?_, ?_⟩
  · simp [replItEditorEvents, isEditorSpawn]
  · simp [replItEditorEvents]
  · intro h
    simp [editorArgs, h]
  · intro h
    simp [editorArgs, h]
  · by_cases h : editor = "code"
    · refine ⟨name ++ ":2", ?_, ":2", rfl⟩
      simp [editorArgs, h]
    · refine ⟨name, ?_, "", ?_⟩
      · simp [editorArgs, h]
      · rw [String.append_empty]
  · intro pe hpe hop
    simp only [replItEditorEvents, List.mem_cons, List.not_mem_nil, or_false] at hpe
    rcases hpe with rfl | rfl | rfl | rfl
    · simp [isProcessOp] at hop
    · simp [isProcessOp] at hop
    · simp [isProcessOp] at hop
    · rfl

/-- Witness for C9 covering both editor branches and the shutdown-only use
of the handle. -/
theorem editor_spawn_once_witness :
    ((replItEditorEvents "code" "/tmp/replit123").filter isEditorSpawn).length = 1 ∧
    editorArgs "code" "/tmp/replit123" = ["--goto", "/tmp/replit123:2"] ∧
    editorArgs "vim" "/tmp/replit123" = ["/tmp/replit123"] ∧
    (RunPhase.shutdown, EditorEvent.killHandle) =
      ((RunPhase.shutdown, EditorEvent.killHandle) : RunPhase × EditorEvent) :=
  ⟨(editor_spawn_once "code" "/tmp/replit123").1,
   (editor_spawn_once "code" "/tmp/replit123").2.2.1 rfl,
   (editor_spawn_once "vim" "/tmp/replit123").2.2.2.1 (by decide),
   (editor_spawn_once "code" "/tmp/replit123").2.2.2.2.2
     (RunPhase.shutdown, EditorEvent.killHandle) (by decide) (by decide)⟩

/-- C10: an absent or empty `--directory` option resolves the working
directory itself; a supplied directory is resolved against the working
directory; in both cases the result is an absolute path whenever the
working directory is absolute (as `os.Getwd` guarantees). -/
theorem directory_resolution (dirOpt cwd : String) :
    (dirOpt = "" → ReadArgsDir dirOpt cwd = absPath cwd cwd) ∧
    (dirOpt ≠ "" → ReadArgsDir dirOpt cwd = absPath cwd dirOpt) ∧
    (isAbsPath cwd = true → isAbsPath (ReadArgsDir dirOpt cwd) = true) := by
  refine ⟨?_, ?_, ?_⟩
  · intro h
    subst h
    rfl
  · intro h
    have hlen : ¬dirOpt.length = 0 := fun h0 => h (string_eq_empty_of_length_eq_zero h0)
    simp [ReadArgsDir, hlen]
  · intro h
    unfold ReadArgsDir
    exact isAbsPath_absPath cwd _ h

/-- Witness for C10 at a concrete working directory. -/
theorem directory_resolution_witness :
    ReadArgsDir "" "/home/user" = absPath "/home/user" "/home/user" ∧
    ReadArgsDir "proj" "/home/user" = absPath "/home/user" "proj" ∧
    isAbsPath (ReadArgsDir "proj" "/home/user") = true :=
  ⟨(directory_resolution "" "/home/user").1 rfl,
   (directory_resolution "proj" "/home/user").2.1 (by decide),
   (directory_resolution "proj" "/home/user").2.2 (by decide)⟩

end Replit
